import Mathlib

/-!
Verification of the routing core of `src/bfclient.py` (a single node of a
distributed Bellman-Ford / distance-vector routing protocol).

The shallow embedding below translates the Python source into Lean:

* Node addresses ("host:port" keys, produced by the helper `addr2key`) are an
  opaque comparable key type, modelled as `Nat` (spec section 3: NodeAddress is
  an opaque hashable/comparable key).
* Path costs and times are numbers or +infinity; the numeric domain of the
  source (Python numbers) is modelled as `ℤ`, costs as `WithTop ℤ`
  (`float("inf")` is `⊤`).  All the verified properties are order- and
  equality-theoretic, so they are insensitive to this choice of a linearly
  ordered numeric carrier.
* The global dict `nodes` is an insertion-ordered association list.  The store
  itself (its initialization and the helpers `in_network` / `get_neighbors`) is
  not part of src/bfclient.py; following spec section 4.1 it is a lazily
  creating map: referencing an absent key creates a default entry (Python
  `defaultdict(default_node)` semantics, required for the neighbor-discovery
  path of `update_costs` to work at all).
* The per-neighbor `ResettableTimer` (a `threading.Timer` that fires
  `interval` seconds after its last (re)start unless cancelled) is modelled by
  a `Monitor` record carrying the interval, the time of the last (re)start, a
  cancelled flag and the linkdown target; a global clock `now` lives in the
  state and an `expire` event may fire only once the interval has fully
  elapsed since the last (re)start.
-/

/-- Node address: opaque comparable key (spec section 3, `addr2key` keys). -/
abbrev Addr := Nat

/-- Path cost: a number or +infinity (`float("inf")` in the source). -/
abbrev Cost := WithTop ℤ

/-- State of one neighbor's silence monitor (`ResettableTimer`, src lines
34-52 and 144-150).  `target` is the address passed to `linkdown` as the
timer's callback arguments. -/
structure Monitor where
  interval : ℤ
  startedAt : ℤ
  cancelled : Bool
  target : Addr
deriving DecidableEq

/-- One routing entry of the `nodes` dict.  Python entries may lack the
`direct` / `costs` / `saved` / `silence_monitor` keys; absent `direct` and
`costs` are modelled by the values `create_node` defaults them to (`⊤` and the
empty vector, src lines 140-141), absent `saved` / `silence_monitor` by
`none`. -/
structure Node where
  cost : Cost
  is_neighbor : Bool
  route : Option Addr
  direct : Cost
  costs : List (Addr × Cost)
  saved : Option Cost
  monitor : Option Monitor
deriving DecidableEq

/-- Payload of one outbound `costsupdate` datagram built by
`broadcast_costs`: the (poisoned) destination→cost table and the sender's
direct cost to the receiving neighbor (src lines 116-117). -/
structure Payload where
  costs : List (Addr × Cost)
  direct : Cost
deriving DecidableEq

/-- Global state of one node: own address `me`, the broadcast period
`timeout` (`run_args.timeout`), the current time `now`, and the `nodes`
table as an insertion-ordered association list. -/
structure BF where
  me : Addr
  timeout : ℤ
  now : ℤ
  nodes : List (Addr × Node)
deriving DecidableEq

/-- Association-list lookup: value at the first occurrence of key `a`
(Python dict lookup). -/
def alook {β : Type} : List (Addr × β) → Addr → Option β
  | [], _ => none
  | p :: ps, a => if p.1 = a then some p.2 else alook ps a

/-- Key membership in the association list (Python `in`). -/
def ahas {β : Type} (l : List (Addr × β)) (a : Addr) : Bool :=
  (alook l a).isSome

/-- Replace the value at key `a` in place (Python assignment to an existing
key, which keeps the key's position). -/
def aset {β : Type} : List (Addr × β) → Addr → β → List (Addr × β)
  | [], _, _ => []
  | p :: ps, a, b => if p.1 = a then (a, b) :: ps else p :: aset ps a b

/-- Remove key `a` (Python `del nodes[addr]`; a dict holds each key once, so
removing every occurrence keeps the association list a faithful dict
encoding). -/
def aerase {β : Type} : List (Addr × β) → Addr → List (Addr × β)
  | [], _ => []
  | p :: ps, a => if p.1 = a then aerase ps a else p :: aerase ps a

/-- Fresh unreachable entry (src lines 132-133), with the absent optional
keys at their modelled defaults. -/
def default_node : Node :=
  { cost := ⊤, is_neighbor := false, route := none, direct := ⊤,
    costs := [], saved := none, monitor := none }

/-- Node construction (src lines 135-151).  For a neighbor the route is the
neighbor's own address and a silence monitor with interval
`3 * run_args.timeout` is created and started, its callback being
`linkdown` on that address. -/
def create_node (cost : Cost) (is_neighbor : Bool) (direct : Option Cost)
    (costs : Option (List (Addr × Cost))) (addr : Addr)
    (timeout now : ℤ) : Node :=
  { cost := cost, is_neighbor := is_neighbor,
    direct := direct.getD ⊤, costs := costs.getD [],
    route := if is_neighbor then some addr else default_node.route,
    saved := none,
    monitor := if is_neighbor then
        some { interval := 3 * timeout, startedAt := now,
               cancelled := false, target := addr }
      else none }

/-- Modelled from the spec: `get_neighbors` is used by the source but not
defined in src/bfclient.py; spec section 4.1 says `neighbors()` is the subset
of the store with `isNeighbor = true`. -/
def get_neighbors (l : List (Addr × Node)) : List (Addr × Node) :=
  l.filter (fun p => p.2.is_neighbor)

/-- One step of the inner loop of `estimate_costs` (src lines 62-68): if the
destination is a key of the neighbor's advertised vector and the candidate
distance (direct cost plus advertised cost) strictly beats the best so far,
take this neighbor. -/
def relaxStep (dest : Addr) (acc : Cost × Option Addr) (p : Addr × Node) :
    Cost × Option Addr :=
  match alook p.2.costs dest with
  | some c => if p.2.direct + c < acc.1 then (p.2.direct + c, some p.1) else acc
  | none => acc

/-- Cheapest route scan of `estimate_costs` for one destination (src lines
60-68), starting from `(inf, '')`. -/
def bestRoute (nbrs : List (Addr × Node)) (dest : Addr) : Cost × Option Addr :=
  nbrs.foldl (relaxStep dest) (⊤, none)

/-- New value of one entry under `estimate_costs`: the entry for `me` is
skipped (src line 58), every other entry gets the scanned cost and nexthop
(src lines 70-71). -/
def estUpd (s : BF) (a : Addr) (n : Node) : Node :=
  if a = s.me then n
  else { n with cost := (bestRoute (get_neighbors s.nodes) a).1,
                route := (bestRoute (get_neighbors s.nodes) a).2 }

/-- Keyed form of the `estimate_costs` per-entry update. -/
def estimateEntry (s : BF) (p : Addr × Node) : Addr × Node :=
  (p.1, estUpd s p.1 p.2)

/-- Bellman-Ford recomputation pass (src lines 54-71).  The Python loop
mutates entries in place, but the inner scan only reads fields
(`is_neighbor`, `direct`, `costs`) that the pass never writes, so the
in-place update coincides with this snapshot semantics. -/
def estimate_costs (s : BF) : BF :=
  { s with nodes := s.nodes.map (estimateEntry s) }

/-- Candidate cost a neighbor entry offers for a destination: direct cost
plus its advertised cost, an absent destination counting as +infinity. -/
def candidate (dest : Addr) (p : Addr × Node) : Cost :=
  p.2.direct + (alook p.2.costs dest).getD ⊤

/-- Minimum candidate cost over a list of neighbor entries. -/
def minCost (dest : Addr) (nbrs : List (Addr × Node)) : Cost :=
  (nbrs.map (candidate dest)).foldl min ⊤

/-- First phase of `update_costs` (src lines 78-81): create a default entry
for every destination listed in the received vector that is not yet in the
store. -/
def add_missing (l : List (Addr × Node)) (costs : List (Addr × Cost)) :
    List (Addr × Node) :=
  costs.foldl (fun acc p => if ahas acc p.1 then acc else acc ++ [(p.1, default_node)]) l

/-- Entry mutation of the neighbor branch of `update_costs` (src lines
93-98): replace the stored advertised vector and reset the silence monitor
(a reset cancels the running countdown and starts a fresh full-interval one,
src lines 43-46). -/
def mergeNode (s : BF) (n : Node) (costs : List (Addr × Cost)) : Node :=
  { n with costs := costs,
           monitor := n.monitor.map
             (fun m => { m with startedAt := s.now, cancelled := false }) }

/-- Neighbor branch of `update_costs` (src lines 93-98). -/
def merge_vec (s : BF) (sender : Addr) (costs : List (Addr × Cost)) : BF :=
  match alook s.nodes sender with
  | some n => { s with nodes := aset s.nodes sender (mergeNode s n costs) }
  | none => s

/-- Promotion branch of `update_costs` (src lines 82-92): `del nodes[addr]`
and then rebuild the entry with `create_node`.  The `cost` argument
`nodes[addr]['cost']` is evaluated after the `del`, so the lazily creating
store first re-inserts a default entry (cost ⊤) and that default cost is
what gets carried; the assignment then overwrites this entry in place. -/
def promote (s : BF) (sender : Addr) (costs : List (Addr × Cost))
    (direct : Cost) : BF :=
  let erased := aerase s.nodes sender
  let refetched := erased ++ [(sender, default_node)]
  let carried := ((alook refetched sender).getD default_node).cost
  let n2 : Node := create_node carried true (some direct) (some costs) sender s.timeout s.now
  { s with nodes := aset refetched sender n2 }

/-- Store after phase one of `update_costs` (src lines 78-81): default
entries created for unknown advertised destinations. -/
def ucS1 (s : BF) (costs : List (Addr × Cost)) : BF :=
  { s with nodes := add_missing s.nodes costs }

/-- Store after the `nodes[addr]` access of src line 83: reading the
sender's entry lazily creates a default one when the sender was never
seen. -/
def ucS2 (s : BF) (sender : Addr) (costs : List (Addr × Cost)) : BF :=
  if ahas (ucS1 s costs).nodes sender then ucS1 s costs
  else { ucS1 s costs with nodes := (ucS1 s costs).nodes ++ [(sender, default_node)] }

/-- Inbound `costsupdate` handler `update_costs` (src lines 73-100): create
defaults for unknown destinations, then either promote a non-neighbor sender
or merge the vector of a known neighbor, and finally run `estimate_costs`
(lazily creating store per spec section 4.1). -/
def update_costs (s : BF) (sender : Addr) (costs : List (Addr × Cost))
    (direct : Cost) : BF :=
  if ((alook (ucS2 s sender costs).nodes sender).getD default_node).is_neighbor then
    estimate_costs (merge_vec (ucS2 s sender costs) sender costs)
  else
    estimate_costs (promote (ucS2 s sender costs) sender costs direct)

/-- Route of the stored entry at an address (`nodes[dest_addr]['route']`,
src line 113). -/
def routeOf (l : List (Addr × Node)) (a : Addr) : Option Addr :=
  match alook l a with
  | some n => n.route
  | none => none

/-- Poisoning of one advertised cost in the vector built for neighbor `N`
(src lines 109-115): a destination that is neither self nor `N` and whose
current route goes through `N` is advertised as +infinity. -/
def poisonEntry (s : BF) (N : Addr) (D : Addr) (c : Cost) : Cost :=
  if D = s.me ∨ D = N then c
  else if routeOf s.nodes D = some N then ⊤ else c

/-- Full destination→cost table (src line 104). -/
def costsTable (s : BF) : List (Addr × Cost) :=
  s.nodes.map (fun p => (p.1, p.2.cost))

/-- Poisoned copy of the cost table for neighbor `N` (src lines 108-115);
`deepcopy` plus per-key overwrites equals a pointwise map. -/
def poisoned (s : BF) (N : Addr) : List (Addr × Cost) :=
  (costsTable s).map (fun p => (p.1, poisonEntry s N p.1 p.2))

/-- Outbound broadcast `broadcast_costs` (src lines 102-119): one datagram
per current neighbor, carrying the poisoned table and the unpoisoned direct
cost to that neighbor. -/
def broadcast_costs (s : BF) : List (Addr × Payload) :=
  (get_neighbors s.nodes).map
    (fun nb => (nb.1, { costs := poisoned s nb.1, direct := nb.2.direct }))

/-- Distinct failure reports of the command handlers, one per distinct
message printed by the source: unknown address (`get_node`, src line 158),
not a neighbor (src lines 165-167 / 182-184), link cost below 1 (src lines
169-171), link administratively down (src lines 172-174), no saved cost
(src lines 197-199). -/
inductive CmdError where
  | unknownNode
  | notNeighbor
  | minCost
  | linkDown
  | noSaved
deriving DecidableEq

/-- Lookup helper `get_node` (src lines 153-160): the error is decided by
`in_network` (membership, modelled from the spec since `in_network` is not
in src/bfclient.py) before the store access, and the access itself lazily
creates a default entry when the address was never seen. -/
def get_node (s : BF) (a : Addr) : BF × Node × Bool :=
  if ahas s.nodes a then (s, (alook s.nodes a).getD default_node, false)
  else ({ s with nodes := s.nodes ++ [(a, default_node)] }, default_node, true)

/-- Entry mutation of a successful `linkchange` (src line 175). -/
def chgNode (n : Node) (c : ℤ) : Node :=
  { n with direct := (c : Cost) }

/-- Entry mutation of a successful `linkdown` (src lines 186-189): save the
direct cost, set it to +infinity, demote, cancel the monitor. -/
def downNode (n : Node) : Node :=
  { n with saved := some n.direct, direct := ⊤, is_neighbor := false,
           monitor := n.monitor.map (fun m => { m with cancelled := true }) }

/-- Entry mutation of a successful `linkup` (src lines 200-203): restore the
saved direct cost, clear it, re-promote; the monitor is left as is. -/
def upNode (n : Node) (d : Cost) : Node :=
  { n with direct := d, saved := none, is_neighbor := true }

/-- Command `linkchange` (src lines 162-177): checks, in order, unknown
address, not a neighbor, cost below 1, link down; on success stores the new
direct cost and recomputes. -/
def linkchange (s : BF) (a : Addr) (direct : ℤ) : BF × Option CmdError :=
  let g := get_node s a
  if g.2.2 then (g.1, some CmdError.unknownNode)
  else if ¬ g.2.1.is_neighbor then (g.1, some CmdError.notNeighbor)
  else if direct < 1 then (g.1, some CmdError.minCost)
  else if g.2.1.saved.isSome then (g.1, some CmdError.linkDown)
  else (estimate_costs { g.1 with nodes := aset g.1.nodes a (chgNode g.2.1 direct) }, none)

/-- Command `linkdown` (src lines 179-191): saves the direct cost, sets it
to +infinity, demotes the neighbor, cancels its silence monitor and
recomputes. -/
def linkdown (s : BF) (a : Addr) : BF × Option CmdError :=
  let g := get_node s a
  if g.2.2 then (g.1, some CmdError.unknownNode)
  else if ¬ g.2.1.is_neighbor then (g.1, some CmdError.notNeighbor)
  else (estimate_costs { g.1 with nodes := aset g.1.nodes a (downNode g.2.1) }, none)

/-- Command `linkup` (src lines 193-205): restores the saved direct cost,
clears it, re-promotes the neighbor and recomputes.  The silence monitor is
not touched (the source has no timer restart in `linkup`). -/
def linkup (s : BF) (a : Addr) : BF × Option CmdError :=
  let g := get_node s a
  if g.2.2 then (g.1, some CmdError.unknownNode)
  else
    match g.2.1.saved with
    | none => (g.1, some CmdError.noSaved)
    | some d =>
        (estimate_costs { g.1 with nodes := aset g.1.nodes a (upNode g.2.1 d) }, none)

/-- Firing of a silence monitor: a started, non-cancelled, non-reset timer
fires once its full interval has elapsed since its last (re)start, invoking
`linkdown` on its stored target (src lines 144-150 with `threading.Timer`
semantics). -/
def expire (s : BF) (a : Addr) : Option BF :=
  match alook s.nodes a with
  | none => none
  | some n =>
    match n.monitor with
    | none => none
    | some m =>
        if m.cancelled = false ∧ m.startedAt + m.interval ≤ s.now then
          some (linkdown s m.target).1
        else none

/-- Advance the clock. -/
def tick (s : BF) (d : ℤ) : BF :=
  { s with now := s.now + d }

/-- Modelled from the spec: the startup code (argument parsing and the
initial seeding of the Topology Store) is not in src/bfclient.py.  Spec
section 6: startup seeds the store with the self address and the initial
neighbor set with link costs before the receive loop starts; each configured
neighbor starts with the link cost as both its cost and its direct cost,
routed to itself, satisfying the spec section 3 invariants. -/
def initState (me : Addr) (timeout : ℤ) (nbrs : List (Addr × ℤ)) : BF :=
  { me := me, timeout := timeout, now := 0,
    nodes := (me, { default_node with cost := ((0 : ℤ) : Cost) }) ::
      nbrs.map (fun p =>
        (p.1, create_node ((p.2 : ℤ) : Cost) true (some ((p.2 : ℤ) : Cost))
          none p.1 timeout 0)) }

/-- One completed core operation (spec section 5 event queue): an inbound
datagram, an operator command, a silence-timer expiry, or the passage of
time.  `broadcast_costs` does not mutate the store and so contributes no
step. -/
inductive Step : BF → BF → Prop where
  | recv (s : BF) (sender : Addr) (costs : List (Addr × Cost)) (direct : Cost) :
      Step s (update_costs s sender costs direct)
  | down (s : BF) (a : Addr) : Step s (linkdown s a).1
  | up (s : BF) (a : Addr) : Step s (linkup s a).1
  | change (s : BF) (a : Addr) (c : ℤ) : Step s (linkchange s a c).1
  | fire (s s2 : BF) (a : Addr) : expire s a = some s2 → Step s s2
  | advance (s : BF) (d : ℤ) : 0 ≤ d → Step s (tick s d)

/-- States reachable from a seeded store by completed core operations. -/
inductive Reachable : BF → Prop where
  | init (me : Addr) (timeout : ℤ) (nbrs : List (Addr × ℤ)) :
      Reachable (initState me timeout nbrs)
  | step (s s2 : BF) : Reachable s → Step s s2 → Reachable s2

/-- Structural invariant of one stored entry: any silence monitor has
interval three times the broadcast period and targets its own address, and
an entry holding a saved direct cost is not a neighbor. -/
def EntryInv (tmo : ℤ) (a : Addr) (n : Node) : Prop :=
  (∀ m, n.monitor = some m → m.interval = 3 * tmo ∧ m.target = a)
  ∧ (n.saved.isSome = true → n.is_neighbor = false)

/-- Structural invariant of the whole store. -/
def MSInv (s : BF) : Prop :=
  ∀ a n, alook s.nodes a = some n → EntryInv s.timeout a n

/-- Spec section 3 invariant: away from self, the nexthop is set exactly
when the cost is finite. -/
def RouteInv (s : BF) : Prop :=
  ∀ a n, alook s.nodes a = some n → a ≠ s.me → (n.route ≠ none ↔ n.cost ≠ ⊤)

/-- Combined reachable-state invariant. -/
def StoreInv (s : BF) : Prop := MSInv s ∧ RouteInv s

/-- Concrete seeded state used by witnesses: self 0, broadcast period 5,
one configured neighbor 1 at link cost 2. -/
def W1 : BF := initState 0 5 [(1, 2)]

/-- Concrete state used by witnesses: self 0 with a neighbor 1 (direct cost
1, advertising destinations 0 and 2) and a destination 2 currently routed
through 1 at cost 6. -/
def W2 : BF :=
  { me := 0, timeout := 5, now := 0,
    nodes :=
      [(0, { default_node with cost := ((0 : ℤ) : Cost) }),
       (1, { cost := ((1 : ℤ) : Cost), is_neighbor := true, route := some 1,
             direct := ((1 : ℤ) : Cost),
             costs := [(0, ((1 : ℤ) : Cost)), (2, ((5 : ℤ) : Cost))],
             saved := none,
             monitor := some { interval := 15, startedAt := 0,
                               cancelled := false, target := 1 } }),
       (2, { default_node with cost := ((6 : ℤ) : Cost), route := some 1 })] }

/-- First datagram built by `broadcast_costs` on `W2`. -/
def W2p : Addr × Payload :=
  (broadcast_costs W2).getD 0 (0, { costs := [], direct := ⊤ })

/-- Concrete state used by the promotion counterexample: the non-neighbor
entry 1 has a previously computed finite cost 6 (routed through the
neighbor 2). -/
def W3 : BF :=
  { me := 0, timeout := 5, now := 0,
    nodes :=
      [(0, { default_node with cost := ((0 : ℤ) : Cost) }),
       (1, { default_node with cost := ((6 : ℤ) : Cost), route := some 2 }),
       (2, { cost := ((1 : ℤ) : Cost), is_neighbor := true, route := some 2,
             direct := ((1 : ℤ) : Cost),
             costs := [(0, ((1 : ℤ) : Cost)), (1, ((5 : ℤ) : Cost))],
             saved := none,
             monitor := some { interval := 15, startedAt := 0,
                               cancelled := false, target := 2 } })] }

/-! Association-list lemmas. -/

theorem alook_append {β : Type} (l t : List (Addr × β)) (a : Addr) :
    alook (l ++ t) a = if (alook l a).isSome then alook l a else alook t a := by
  induction l with
  | nil => simp [alook]
  | cons p ps ih => by_cases h : p.1 = a <;> simp [alook, h, ih]

theorem alook_aset {β : Type} (l : List (Addr × β)) (a : Addr) (b : β) (x : Addr) :
    alook (aset l a b) x = if x = a then (alook l a).map (fun _ => b) else alook l x := by
  induction l with
  | nil => by_cases hx : x = a <;> simp [aset, alook, hx]
  | cons p ps ih =>
    by_cases h : p.1 = a
    · subst h
      by_cases hx : x = p.1
      · subst hx; simp [aset, alook]
      · have hpx : ¬ p.1 = x := fun hh => hx hh.symm
        simp [aset, alook, hx, hpx]
    · by_cases hx : x = a
      · subst hx; simp [aset, alook, h, ih]
      · by_cases hpx : p.1 = x <;> simp [aset, alook, h, hx, hpx, ih]

theorem alook_aerase {β : Type} (l : List (Addr × β)) (a x : Addr) :
    alook (aerase l a) x = if x = a then none else alook l x := by
  induction l with
  | nil => simp [aerase, alook]
  | cons p ps ih =>
    by_cases h : p.1 = a
    · subst h
      by_cases hx : x = p.1
      · subst hx; simp [aerase, alook, ih]
      · have hpx : ¬ p.1 = x := fun hh => hx hh.symm
        simp [aerase, alook, hx, hpx, ih]
    · by_cases hx : x = a
      · subst hx; simp [aerase, alook, h, ih]
      · by_cases hpx : p.1 = x <;> simp [aerase, alook, h, hx, hpx, ih]

theorem alook_mapVal {β γ : Type} (g : Addr → β → γ) (l : List (Addr × β)) (a : Addr) :
    alook (l.map (fun p => (p.1, g p.1 p.2))) a = (alook l a).map (g a) := by
  induction l with
  | nil => simp [alook]
  | cons p ps ih => by_cases h : p.1 = a <;> simp [alook, h, ih]

theorem alook_add_missing {c : List (Addr × Cost)} {l : List (Addr × Node)} {a : Addr}
    (h : (alook l a).isSome) : alook (add_missing l c) a = alook l a := by
  induction c generalizing l with
  | nil => rfl
  | cons p ps ih =>
    show alook (add_missing (if ahas l p.1 then l else l ++ [(p.1, default_node)]) ps) a = _
    by_cases hp : ahas l p.1 = true
    · rw [if_pos hp]; exact ih h
    · rw [if_neg hp]
      have h2 : alook (l ++ [(p.1, default_node)]) a = alook l a := by
        rw [alook_append, if_pos h]
      rw [ih (by rw [h2]; exact h), h2]

theorem alook_add_missing_cases {c : List (Addr × Cost)} {l : List (Addr × Node)} {a : Addr}
    {n : Node} (h : alook (add_missing l c) a = some n) :
    alook l a = some n ∨ n = default_node := by
  induction c generalizing l with
  | nil => exact Or.inl h
  | cons p ps ih =>
    have h' : alook (add_missing (if ahas l p.1 then l else l ++ [(p.1, default_node)]) ps) a
        = some n := h
    rcases ih h' with h2 | h2
    · by_cases hp : ahas l p.1 = true
      · rw [if_pos hp] at h2; exact Or.inl h2
      · rw [if_neg hp, alook_append] at h2
        by_cases hs : (alook l a).isSome
        · rw [if_pos hs] at h2; exact Or.inl h2
        · rw [if_neg hs] at h2
          by_cases hx : p.1 = a
          · simp [alook, hx] at h2; exact Or.inr h2.symm
          · simp [alook, hx] at h2
    · exact Or.inr h2

/-! Per-field behavior of the recomputation pass. -/

@[simp] theorem estUpd_is_neighbor (s : BF) (a : Addr) (n : Node) :
    (estUpd s a n).is_neighbor = n.is_neighbor := by
  unfold estUpd; split <;> rfl

@[simp] theorem estUpd_direct (s : BF) (a : Addr) (n : Node) :
    (estUpd s a n).direct = n.direct := by
  unfold estUpd; split <;> rfl

@[simp] theorem estUpd_costs (s : BF) (a : Addr) (n : Node) :
    (estUpd s a n).costs = n.costs := by
  unfold estUpd; split <;> rfl

@[simp] theorem estUpd_saved (s : BF) (a : Addr) (n : Node) :
    (estUpd s a n).saved = n.saved := by
  unfold estUpd; split <;> rfl

@[simp] theorem estUpd_monitor (s : BF) (a : Addr) (n : Node) :
    (estUpd s a n).monitor = n.monitor := by
  unfold estUpd; split <;> rfl

theorem alook_estimate (s : BF) (a : Addr) :
    alook (estimate_costs s).nodes a = (alook s.nodes a).map (estUpd s a) :=
  alook_mapVal (estUpd s) s.nodes a

theorem relaxStep_estimateEntry (s : BF) (d : Addr) (acc : Cost × Option Addr)
    (p : Addr × Node) : relaxStep d acc (estimateEntry s p) = relaxStep d acc p := by
  show relaxStep d acc (p.1, estUpd s p.1 p.2) = relaxStep d acc p
  unfold relaxStep
  simp only [estUpd_costs, estUpd_direct]

theorem get_neighbors_map_est (s : BF) (l : List (Addr × Node)) :
    get_neighbors (l.map (estimateEntry s)) = (get_neighbors l).map (estimateEntry s) := by
  induction l with
  | nil => rfl
  | cons p ps ih =>
    show get_neighbors (estimateEntry s p :: ps.map (estimateEntry s)) = _
    have hp : (estimateEntry s p).2.is_neighbor = p.2.is_neighbor := estUpd_is_neighbor s p.1 p.2
    cases hb : p.2.is_neighbor <;>
      simp [get_neighbors, List.filter_cons, hp, hb, ih] <;>
      exact ih

theorem bestRoute_map_est (s : BF) (l : List (Addr × Node)) (d : Addr) :
    bestRoute (l.map (estimateEntry s)) d = bestRoute l d := by
  unfold bestRoute
  rw [List.foldl_map]
  simp only [relaxStep_estimateEntry]

/-! Characterization of the cheapest-route scan. -/

theorem relaxStep_some (d : Addr) (acc : Cost × Option Addr) (p : Addr × Node)
    (c : Cost) (h : alook p.2.costs d = some c) :
    relaxStep d acc p = if p.2.direct + c < acc.1 then (p.2.direct + c, some p.1) else acc := by
  unfold relaxStep; rw [h]

theorem relaxStep_none (d : Addr) (acc : Cost × Option Addr) (p : Addr × Node)
    (h : alook p.2.costs d = none) : relaxStep d acc p = acc := by
  unfold relaxStep; rw [h]

theorem relaxStep_fst (d : Addr) (acc : Cost × Option Addr) (p : Addr × Node) :
    (relaxStep d acc p).1 = min acc.1 (candidate d p) := by
  unfold relaxStep candidate
  cases h : alook p.2.costs d with
  | none =>
      simp only [h, Option.getD_none]
      rw [add_top]
      exact (min_eq_left le_top).symm
  | some c =>
      simp only [h, Option.getD_some]
      by_cases hlt : p.2.direct + c < acc.1
      · rw [if_pos hlt]
        exact (min_eq_right (le_of_lt hlt)).symm
      · rw [if_neg hlt]
        exact (min_eq_left (le_of_not_lt hlt)).symm

theorem foldl_relax_fst (d : Addr) (l : List (Addr × Node)) (acc : Cost × Option Addr) :
    (l.foldl (relaxStep d) acc).1 = (l.map (candidate d)).foldl min acc.1 := by
  induction l generalizing acc with
  | nil => rfl
  | cons p ps ih =>
    show ((ps.foldl (relaxStep d) (relaxStep d acc p))).1 = _
    rw [ih, relaxStep_fst]
    rfl

theorem bestRoute_fst (nbrs : List (Addr × Node)) (d : Addr) :
    (bestRoute nbrs d).1 = minCost d nbrs :=
  foldl_relax_fst d nbrs (⊤, none)

theorem foldl_relax_good (d : Addr) (l : List (Addr × Node)) :
    ∀ acc : Cost × Option Addr, (acc.2 = none ↔ acc.1 = ⊤) →
      ((l.foldl (relaxStep d) acc).2 = none ↔ (l.foldl (relaxStep d) acc).1 = ⊤) := by
  induction l with
  | nil => exact fun acc h => h
  | cons p ps ih =>
    intro acc hacc
    show ((ps.foldl (relaxStep d) (relaxStep d acc p))).2 = none ↔ _
    refine ih (relaxStep d acc p) ?_
    cases h : alook p.2.costs d with
    | none => rw [relaxStep_none d acc p h]; exact hacc
    | some c =>
        rw [relaxStep_some d acc p c h]
        by_cases hlt : p.2.direct + c < acc.1
        · rw [if_pos hlt]
          constructor
          · intro hc; exact absurd hc (by simp)
          · intro hc; exact absurd hc hlt.ne_top
        · rw [if_neg hlt]; exact hacc

theorem bestRoute_good (nbrs : List (Addr × Node)) (d : Addr) :
    (bestRoute nbrs d).2 = none ↔ (bestRoute nbrs d).1 = ⊤ :=
  foldl_relax_good d nbrs (⊤, none) (by simp)

theorem foldl_relax_attain (d : Addr) (l : List (Addr × Node)) :
    ∀ (acc : Cost × Option Addr) (x : Addr), (l.foldl (relaxStep d) acc).2 = some x →
      (acc.2 = some x ∧ (l.foldl (relaxStep d) acc).1 = acc.1) ∨
      ∃ p, p ∈ l ∧ p.1 = x ∧ candidate d p = (l.foldl (relaxStep d) acc).1 := by
  induction l with
  | nil => exact fun acc x h => Or.inl ⟨h, rfl⟩
  | cons p ps ih =>
    intro acc x h
    have hres : (p :: ps).foldl (relaxStep d) acc
        = ps.foldl (relaxStep d) (relaxStep d acc p) := rfl
    rw [hres] at h ⊢
    cases hl : alook p.2.costs d with
    | none =>
        rw [relaxStep_none d acc p hl] at h ⊢
        rcases ih acc x h with ⟨h1, h2⟩ | ⟨q, hq, hqx, hqc⟩
        · exact Or.inl ⟨h1, h2⟩
        · exact Or.inr ⟨q, List.mem_cons_of_mem p hq, hqx, hqc⟩
    | some c =>
        rw [relaxStep_some d acc p c hl] at h ⊢
        by_cases hlt : p.2.direct + c < acc.1
        · rw [if_pos hlt] at h ⊢
          rcases ih (p.2.direct + c, some p.1) x h with ⟨h1, h2⟩ | ⟨q, hq, hqx, hqc⟩
          · refine Or.inr ⟨p, List.mem_cons_self p ps, ?_, ?_⟩
            · have hx : some p.1 = some x := h1
              injection hx
            · rw [h2]
              show candidate d p = p.2.direct + c
              unfold candidate; rw [hl]; rfl
          · exact Or.inr ⟨q, List.mem_cons_of_mem p hq, hqx, hqc⟩
        · rw [if_neg hlt] at h ⊢
          rcases ih acc x h with ⟨h1, h2⟩ | ⟨q, hq, hqx, hqc⟩
          · exact Or.inl ⟨h1, h2⟩
          · exact Or.inr ⟨q, List.mem_cons_of_mem p hq, hqx, hqc⟩

theorem bestRoute_attain (nbrs : List (Addr × Node)) (d : Addr) (x : Addr)
    (h : (bestRoute nbrs d).2 = some x) :
    ∃ p, p ∈ nbrs ∧ p.1 = x ∧ candidate d p = (bestRoute nbrs d).1 := by
  rcases foldl_relax_attain d nbrs (⊤, none) x h with ⟨h1, _⟩ | h1
  · exact absurd h1 (by simp)
  · exact h1

/-! Idempotence of the recomputation pass. -/

theorem estimateEntry_idem (s : BF) (p : Addr × Node) :
    estimateEntry (estimate_costs s) (estimateEntry s p) = estimateEntry s p := by
  show (p.1, estUpd (estimate_costs s) p.1 (estUpd s p.1 p.2)) = (p.1, estUpd s p.1 p.2)
  unfold estUpd
  by_cases h : p.1 = s.me
  · have hme : p.1 = (estimate_costs s).me := h
    rw [if_pos h, if_pos hme]
  · have hme : ¬ p.1 = (estimate_costs s).me := h
    rw [if_neg h, if_neg hme]
    have hbr : bestRoute (get_neighbors (estimate_costs s).nodes) p.1
        = bestRoute (get_neighbors s.nodes) p.1 := by
      show bestRoute (get_neighbors (s.nodes.map (estimateEntry s))) p.1 = _
      rw [get_neighbors_map_est, bestRoute_map_est]
    rw [hbr]

theorem estimate_costs_idem (s : BF) :
    estimate_costs (estimate_costs s) = estimate_costs s := by
  have hn : (estimate_costs s).nodes.map (estimateEntry (estimate_costs s))
      = (estimate_costs s).nodes := by
    show (s.nodes.map (estimateEntry s)).map (estimateEntry (estimate_costs s))
        = s.nodes.map (estimateEntry s)
    rw [List.map_map]
    exact congrArg (fun f => List.map f s.nodes)
      (funext fun p => estimateEntry_idem s p)
  show BF.mk s.me s.timeout s.now ((estimate_costs s).nodes.map (estimateEntry (estimate_costs s)))
      = BF.mk s.me s.timeout s.now (s.nodes.map (estimateEntry s))
  rw [hn]
  rfl

/-! Characterization of the command handlers on known and unknown
addresses. -/

theorem get_node_known {s : BF} {a : Addr} {n : Node} (h : alook s.nodes a = some n) :
    get_node s a = (s, n, false) := by
  unfold get_node ahas
  rw [h]
  rfl

theorem get_node_unknown {s : BF} {a : Addr} (h : alook s.nodes a = none) :
    get_node s a = ({ s with nodes := s.nodes ++ [(a, default_node)] }, default_node, true) := by
  unfold get_node ahas
  rw [h]
  rfl

theorem linkdown_unknown {s : BF} {a : Addr} (h : alook s.nodes a = none) :
    linkdown s a = ({ s with nodes := s.nodes ++ [(a, default_node)] },
      some CmdError.unknownNode) := by
  unfold linkdown
  rw [get_node_unknown h]
  rfl

theorem linkdown_not_neighbor {s : BF} {a : Addr} {n : Node}
    (h : alook s.nodes a = some n) (hn : n.is_neighbor = false) :
    linkdown s a = (s, some CmdError.notNeighbor) := by
  unfold linkdown
  rw [get_node_known h]
  simp [hn]

theorem linkdown_success {s : BF} {a : Addr} {n : Node}
    (h : alook s.nodes a = some n) (hn : n.is_neighbor = true) :
    linkdown s a = (estimate_costs { s with nodes := aset s.nodes a (downNode n) }, none) := by
  unfold linkdown
  rw [get_node_known h]
  simp [hn]

theorem linkup_unknown {s : BF} {a : Addr} (h : alook s.nodes a = none) :
    linkup s a = ({ s with nodes := s.nodes ++ [(a, default_node)] },
      some CmdError.unknownNode) := by
  unfold linkup
  rw [get_node_unknown h]
  rfl

theorem linkup_no_saved {s : BF} {a : Addr} {n : Node}
    (h : alook s.nodes a = some n) (hn : n.saved = none) :
    linkup s a = (s, some CmdError.noSaved) := by
  unfold linkup
  rw [get_node_known h]
  simp [hn]

theorem linkup_success {s : BF} {a : Addr} {n : Node} {d : Cost}
    (h : alook s.nodes a = some n) (hn : n.saved = some d) :
    linkup s a = (estimate_costs { s with nodes := aset s.nodes a (upNode n d) }, none) := by
  unfold linkup
  rw [get_node_known h]
  simp [hn]

theorem linkchange_unknown {s : BF} {a : Addr} (c : ℤ) (h : alook s.nodes a = none) :
    linkchange s a c = ({ s with nodes := s.nodes ++ [(a, default_node)] },
      some CmdError.unknownNode) := by
  unfold linkchange
  rw [get_node_unknown h]
  rfl

theorem linkchange_not_neighbor {s : BF} {a : Addr} {n : Node} (c : ℤ)
    (h : alook s.nodes a = some n) (hn : n.is_neighbor = false) :
    linkchange s a c = (s, some CmdError.notNeighbor) := by
  unfold linkchange
  rw [get_node_known h]
  simp [hn]

theorem linkchange_small {s : BF} {a : Addr} {n : Node} {c : ℤ}
    (h : alook s.nodes a = some n) (hn : n.is_neighbor = true) (hc : c < 1) :
    linkchange s a c = (s, some CmdError.minCost) := by
  unfold linkchange
  rw [get_node_known h]
  simp [hn, hc]

theorem linkchange_down {s : BF} {a : Addr} {n : Node} {c : ℤ}
    (h : alook s.nodes a = some n) (hn : n.is_neighbor = true) (hc : ¬ c < 1)
    (hs : n.saved.isSome = true) :
    linkchange s a c = (s, some CmdError.linkDown) := by
  unfold linkchange
  rw [get_node_known h]
  simp [hn, hc, hs]

theorem linkchange_success {s : BF} {a : Addr} {n : Node} {c : ℤ}
    (h : alook s.nodes a = some n) (hn : n.is_neighbor = true) (hc : ¬ c < 1)
    (hs : n.saved = none) :
    linkchange s a c = (estimate_costs { s with nodes := aset s.nodes a (chgNode n c) }, none) := by
  unfold linkchange
  rw [get_node_known h]
  simp [hn, hc, hs]

theorem ucS2_known {s : BF} {sender : Addr} {n : Node} (v : List (Addr × Cost))
    (h : alook s.nodes sender = some n) : ucS2 s sender v = ucS1 s v := by
  have h1 : alook (add_missing s.nodes v) sender = some n :=
    Eq.trans (alook_add_missing (by rw [h]; rfl)) h
  have hhas : ahas (ucS1 s v).nodes sender = true := by
    show (alook (add_missing s.nodes v) sender).isSome = true
    rw [h1]; rfl
  unfold ucS2
  rw [if_pos hhas]

theorem alook_ucS1 {s : BF} {sender : Addr} {n : Node} (v : List (Addr × Cost))
    (h : alook s.nodes sender = some n) : alook (ucS1 s v).nodes sender = some n :=
  Eq.trans (alook_add_missing (by rw [h]; rfl)) h

theorem update_costs_known {s : BF} {sender : Addr} {n : Node}
    (v : List (Addr × Cost)) (d : Cost) (h : alook s.nodes sender = some n) :
    update_costs s sender v d =
      if n.is_neighbor then
        estimate_costs (merge_vec (ucS1 s v) sender v)
      else
        estimate_costs (promote (ucS1 s v) sender v d) := by
  unfold update_costs
  rw [ucS2_known v h, alook_ucS1 v h]
  rfl

theorem update_costs_merge {s : BF} {sender : Addr} {n : Node}
    (v : List (Addr × Cost)) (d : Cost) (h : alook s.nodes sender = some n)
    (hn : n.is_neighbor = true) :
    update_costs s sender v d = estimate_costs (merge_vec (ucS1 s v) sender v) := by
  rw [update_costs_known v d h, if_pos hn]

theorem update_costs_promote {s : BF} {sender : Addr} {n : Node}
    (v : List (Addr × Cost)) (d : Cost) (h : alook s.nodes sender = some n)
    (hn : n.is_neighbor = false) :
    update_costs s sender v d = estimate_costs (promote (ucS1 s v) sender v d) := by
  rw [update_costs_known v d h]
  rw [hn]
  rfl

/-! Preservation of the structural store invariant. -/

theorem entryinv_default (tmo : ℤ) (a : Addr) : EntryInv tmo a default_node := by
  constructor
  · intro m hm; exact absurd hm (by simp [default_node])
  · intro hs; rfl

theorem entryinv_create (tmo now : ℤ) (cost : Cost) (b : Bool) (direct : Option Cost)
    (costs : Option (List (Addr × Cost))) (a : Addr) :
    EntryInv tmo a (create_node cost b direct costs a tmo now) := by
  constructor
  · intro m hm
    cases b with
    | false => exact absurd hm (by simp [create_node])
    | true =>
        have hm2 : some (⟨3 * tmo, now, false, a⟩ : Monitor) = some m := hm
        injection hm2 with hm2
        rw [← hm2]
        exact ⟨rfl, rfl⟩
  · intro hs; exact absurd hs (by simp [create_node])

theorem entryinv_down {tmo : ℤ} {a : Addr} {n : Node} (h : EntryInv tmo a n) :
    EntryInv tmo a (downNode n) := by
  constructor
  · intro m hm
    have hm' : n.monitor.map (fun m0 => { m0 with cancelled := true }) = some m := hm
    cases hm0 : n.monitor with
    | none => rw [hm0] at hm'; exact absurd hm' (by simp)
    | some m0 =>
        rw [hm0] at hm'
        have : some ({ m0 with cancelled := true } : Monitor) = some m := hm'
        injection this with hh
        rcases h.1 m0 hm0 with ⟨hi, ht⟩
        rw [← hh]
        exact ⟨hi, ht⟩
  · intro hs; rfl

theorem entryinv_up {tmo : ℤ} {a : Addr} {n : Node} {d : Cost} (h : EntryInv tmo a n) :
    EntryInv tmo a (upNode n d) := by
  constructor
  · intro m hm; exact h.1 m hm
  · intro hs; exact absurd hs (by simp [upNode])

theorem entryinv_chg {tmo : ℤ} {a : Addr} {n : Node} {c : ℤ} (h : EntryInv tmo a n)
    (hs : n.saved = none) : EntryInv tmo a (chgNode n c) := by
  constructor
  · intro m hm; exact h.1 m hm
  · intro hsome; exact absurd hsome (by simp [chgNode, hs])

theorem entryinv_estUpd {s : BF} {a : Addr} {n : Node}
    (h : EntryInv s.timeout a n) : EntryInv s.timeout a (estUpd s a n) := by
  constructor
  · intro m hm; rw [estUpd_monitor] at hm; exact h.1 m hm
  · intro hs; rw [estUpd_saved] at hs
    rw [estUpd_is_neighbor]; exact h.2 hs

theorem msinv_estimate {X : BF} (h : MSInv X) : MSInv (estimate_costs X) := by
  intro a n hn
  rw [alook_estimate] at hn
  cases hx : alook X.nodes a with
  | none => rw [hx] at hn; exact absurd hn (by simp)
  | some n0 =>
      rw [hx] at hn
      have : some (estUpd X a n0) = some n := hn
      injection this with hh
      rw [← hh]
      exact entryinv_estUpd (h a n0 hx)

theorem routeinv_estimate (X : BF) : RouteInv (estimate_costs X) := by
  intro a n hn ha
  rw [alook_estimate] at hn
  cases hx : alook X.nodes a with
  | none => rw [hx] at hn; exact absurd hn (by simp)
  | some n0 =>
      rw [hx] at hn
      have : some (estUpd X a n0) = some n := hn
      injection this with hh
      have hame : ¬ a = X.me := ha
      rw [← hh]
      unfold estUpd
      rw [if_neg hame]
      show (bestRoute (get_neighbors X.nodes) a).2 ≠ none ↔
        (bestRoute (get_neighbors X.nodes) a).1 ≠ ⊤
      exact not_congr (bestRoute_good (get_neighbors X.nodes) a)

theorem storeinv_estimate {X : BF} (h : MSInv X) : StoreInv (estimate_costs X) :=
  ⟨msinv_estimate h, routeinv_estimate X⟩

theorem msinv_append_default {s : BF} (a : Addr) (h : MSInv s) :
    MSInv { s with nodes := s.nodes ++ [(a, default_node)] } := by
  intro x n hx
  have hx' : alook (s.nodes ++ [(a, default_node)]) x = some n := hx
  rw [alook_append] at hx'
  by_cases hs : (alook s.nodes x).isSome = true
  · rw [if_pos hs] at hx'; exact h x n hx'
  · rw [if_neg hs] at hx'
    by_cases hax : a = x
    · simp [alook, hax] at hx'
      rw [← hx']
      exact entryinv_default s.timeout x
    · simp [alook, hax] at hx'

theorem routeinv_append_default {s : BF} (a : Addr) (h : RouteInv s) :
    RouteInv { s with nodes := s.nodes ++ [(a, default_node)] } := by
  intro x n hx hme
  have hx' : alook (s.nodes ++ [(a, default_node)]) x = some n := hx
  rw [alook_append] at hx'
  by_cases hs : (alook s.nodes x).isSome = true
  · rw [if_pos hs] at hx'; exact h x n hx' hme
  · rw [if_neg hs] at hx'
    by_cases hax : a = x
    · simp [alook, hax] at hx'
      rw [← hx']
      simp [default_node]
    · simp [alook, hax] at hx'

theorem msinv_add_missing {s : BF} (v : List (Addr × Cost)) (h : MSInv s) :
    MSInv (ucS1 s v) := by
  intro x n hx
  rcases alook_add_missing_cases hx with h2 | h2
  · exact h x n h2
  · rw [h2]; exact entryinv_default s.timeout x

theorem msinv_aset {s : BF} {a : Addr} {n2 : Node} (h : MSInv s)
    (h2 : EntryInv s.timeout a n2) : MSInv { s with nodes := aset s.nodes a n2 } := by
  intro x n hx
  have hx' : alook (aset s.nodes a n2) x = some n := hx
  rw [alook_aset] at hx'
  by_cases hxa : x = a
  · rw [if_pos hxa] at hx'
    cases ho : alook s.nodes a with
    | none => rw [ho] at hx'; exact absurd hx' (by simp)
    | some n0 =>
        rw [ho] at hx'
        have : some n2 = some n := hx'
        injection this with hh
        rw [← hh, hxa]
        exact h2
  · rw [if_neg hxa] at hx'
    exact h x n hx'

theorem msinv_ucS2 {s : BF} (sender : Addr) (v : List (Addr × Cost)) (h : MSInv s) :
    MSInv (ucS2 s sender v) := by
  unfold ucS2
  by_cases hhas : ahas (ucS1 s v).nodes sender = true
  · rw [if_pos hhas]; exact msinv_add_missing v h
  · rw [if_neg hhas]
    exact msinv_append_default sender (msinv_add_missing v h)

theorem msinv_merge_vec {s : BF} (sender : Addr) (v : List (Addr × Cost)) (h : MSInv s) :
    MSInv (merge_vec s sender v) := by
  unfold merge_vec
  cases ho : alook s.nodes sender with
  | none => exact h
  | some n =>
      refine msinv_aset h ?_
      rcases h sender n ho with ⟨hm, hs⟩
      constructor
      · intro m hmm
        have hmm' : n.monitor.map
            (fun m0 => { m0 with startedAt := s.now, cancelled := false }) = some m := hmm
        cases hm0 : n.monitor with
        | none => rw [hm0] at hmm'; exact absurd hmm' (by simp)
        | some m0 =>
            rw [hm0] at hmm'
            have : some ({ m0 with startedAt := s.now, cancelled := false } : Monitor)
                = some m := hmm'
            injection this with hh
            rcases hm m0 hm0 with ⟨hi, ht⟩
            rw [← hh]
            exact ⟨hi, ht⟩
      · intro hsome; exact hs hsome

theorem msinv_promote {s : BF} (sender : Addr) (v : List (Addr × Cost)) (d : Cost)
    (h : MSInv s) : MSInv (promote s sender v d) := by
  intro x n hx
  unfold promote at hx
  have hx' : alook (aset (aerase s.nodes sender ++ [(sender, default_node)]) sender
      (create_node ((alook (aerase s.nodes sender ++ [(sender, default_node)])
        sender).getD default_node).cost true (some d) (some v) sender s.timeout s.now)) x
      = some n := hx
  rw [alook_aset] at hx'
  by_cases hxa : x = sender
  · rw [if_pos hxa] at hx'
    cases ho : alook (aerase s.nodes sender ++ [(sender, default_node)]) sender with
    | none => rw [ho] at hx'; exact absurd hx' (by simp)
    | some n0 =>
        rw [ho] at hx'
        have : some _ = some n := hx'
        injection this with hh
        rw [← hh, hxa]
        exact entryinv_create s.timeout s.now _ true (some d) (some v) sender
  · rw [if_neg hxa] at hx'
    rw [alook_append] at hx'
    by_cases hs : (alook (aerase s.nodes sender) x).isSome = true
    · rw [if_pos hs, alook_aerase, if_neg hxa] at hx'
      exact h x n hx'
    · rw [if_neg hs] at hx'
      by_cases hax : sender = x
      · exact absurd hax.symm hxa
      · simp [alook, hax] at hx'

theorem storeinv_tick {s : BF} {d : ℤ} (h : StoreInv s) : StoreInv (tick s d) := by
  constructor
  · intro a n hn; exact h.1 a n hn
  · intro a n hn hme; exact h.2 a n hn hme

theorem storeinv_append {s : BF} (a : Addr) (h : StoreInv s) :
    StoreInv { s with nodes := s.nodes ++ [(a, default_node)] } :=
  ⟨msinv_append_default a h.1, routeinv_append_default a h.2⟩

theorem storeinv_linkdown (s : BF) (a : Addr) (h : StoreInv s) :
    StoreInv (linkdown s a).1 := by
  cases hx : alook s.nodes a with
  | none => rw [linkdown_unknown hx]; exact storeinv_append a h
  | some n =>
      cases hb : n.is_neighbor with
      | false => rw [linkdown_not_neighbor hx hb]; exact h
      | true =>
          rw [linkdown_success hx hb]
          exact storeinv_estimate (msinv_aset h.1 (entryinv_down (h.1 a n hx)))

theorem storeinv_linkup (s : BF) (a : Addr) (h : StoreInv s) :
    StoreInv (linkup s a).1 := by
  cases hx : alook s.nodes a with
  | none => rw [linkup_unknown hx]; exact storeinv_append a h
  | some n =>
      cases hs : n.saved with
      | none => rw [linkup_no_saved hx hs]; exact h
      | some d =>
          rw [linkup_success hx hs]
          exact storeinv_estimate (msinv_aset h.1 (entryinv_up (h.1 a n hx)))

theorem storeinv_linkchange (s : BF) (a : Addr) (c : ℤ) (h : StoreInv s) :
    StoreInv (linkchange s a c).1 := by
  cases hx : alook s.nodes a with
  | none => rw [linkchange_unknown c hx]; exact storeinv_append a h
  | some n =>
      cases hb : n.is_neighbor with
      | false => rw [linkchange_not_neighbor c hx hb]; exact h
      | true =>
          by_cases hc : c < 1
          · rw [linkchange_small hx hb hc]; exact h
          · cases hs : n.saved with
            | some d =>
                rw [linkchange_down hx hb hc (by rw [hs]; rfl)]
                exact h
            | none =>
                rw [linkchange_success hx hb hc hs]
                exact storeinv_estimate (msinv_aset h.1 (entryinv_chg (h.1 a n hx) hs))

theorem storeinv_update (s : BF) (sender : Addr) (v : List (Addr × Cost)) (d : Cost)
    (h : StoreInv s) : StoreInv (update_costs s sender v d) := by
  unfold update_costs
  by_cases hb : ((alook (ucS2 s sender v).nodes sender).getD default_node).is_neighbor = true
  · rw [if_pos hb]
    exact storeinv_estimate (msinv_merge_vec sender v (msinv_ucS2 sender v h.1))
  · rw [if_neg hb]
    exact storeinv_estimate (msinv_promote sender v d (msinv_ucS2 sender v h.1))

theorem expire_eq {s : BF} {a : Addr} {s2 : BF} (h : expire s a = some s2) :
    ∃ t, s2 = (linkdown s t).1 := by
  unfold expire at h
  cases hx : alook s.nodes a with
  | none =>
      simp only [hx] at h
      exact absurd h (by simp)
  | some n =>
      simp only [hx] at h
      cases hm : n.monitor with
      | none =>
          simp only [hm] at h
          exact absurd h (by simp)
      | some m =>
          simp only [hm] at h
          by_cases hc : m.cancelled = false ∧ m.startedAt + m.interval ≤ s.now
          · rw [if_pos hc] at h
            injection h with h
            exact ⟨m.target, h.symm⟩
          · rw [if_neg hc] at h
            exact absurd h (by simp)

theorem alook_init (me : Addr) (tmo : ℤ) (nbrs : List (Addr × ℤ)) (a : Addr) :
    alook (initState me tmo nbrs).nodes a =
      if me = a then some { default_node with cost := ((0 : ℤ) : Cost) }
      else (alook nbrs a).map (fun q =>
        create_node ((q : ℤ) : Cost) true (some ((q : ℤ) : Cost)) none a tmo 0) := by
  by_cases hme : me = a
  · rw [if_pos hme]
    show (if me = a then _ else _) = _
    rw [if_pos hme]
  · rw [if_neg hme]
    show (if me = a then _ else _) = _
    rw [if_neg hme]
    exact alook_mapVal (fun x q => create_node ((q : ℤ) : Cost) true
      (some ((q : ℤ) : Cost)) none x tmo 0) nbrs a

theorem storeinv_init (me : Addr) (tmo : ℤ) (nbrs : List (Addr × ℤ)) :
    StoreInv (initState me tmo nbrs) := by
  constructor
  · intro a n hn
    show EntryInv tmo a n
    rw [alook_init] at hn
    by_cases hme : me = a
    · rw [if_pos hme] at hn
      injection hn with hn
      rw [← hn]
      constructor
      · intro m hm; exact absurd hm (by simp [default_node])
      · intro hs; rfl
    · rw [if_neg hme] at hn
      cases ho : alook nbrs a with
      | none => rw [ho] at hn; exact absurd hn (by simp)
      | some q =>
          rw [ho] at hn
          have hn2 : some (create_node ((q : ℤ) : Cost) true (some ((q : ℤ) : Cost))
              none a tmo 0) = some n := hn
          injection hn2 with hh
          rw [← hh]
          exact entryinv_create tmo 0 _ true _ _ a
  · intro a n hn hme'
    rw [alook_init] at hn
    have hme : ¬ me = a := fun hh => hme' hh.symm
    rw [if_neg hme] at hn
    cases ho : alook nbrs a with
    | none => rw [ho] at hn; exact absurd hn (by simp)
    | some q =>
        rw [ho] at hn
        have hn2 : some (create_node ((q : ℤ) : Cost) true (some ((q : ℤ) : Cost))
            none a tmo 0) = some n := hn
        injection hn2 with hh
        rw [← hh]
        constructor
        · intro _
          show ((q : ℤ) : Cost) ≠ ⊤
          exact WithTop.coe_ne_top
        · intro _
          simp [create_node]

theorem reachable_storeinv {s : BF} (h : Reachable s) : StoreInv s := by
  induction h with
  | init me tmo nbrs => exact storeinv_init me tmo nbrs
  | step s s2 hr hstep ih =>
      cases hstep with
      | recv sender v d => exact storeinv_update s sender v d ih
      | down a => exact storeinv_linkdown s a ih
      | up a => exact storeinv_linkup s a ih
      | change a c => exact storeinv_linkchange s a c ih
      | fire s2x a hf =>
          rcases expire_eq hf with ⟨t, ht⟩
          rw [ht]
          exact storeinv_linkdown s t ih
      | advance d hd => exact storeinv_tick ih

/-! Lookup helpers used by several claim proofs. -/

theorem alook_costsTable (s : BF) (a : Addr) :
    alook (costsTable s) a = (alook s.nodes a).map (fun nn => nn.cost) := by
  exact alook_mapVal (fun x nn => nn.cost) s.nodes a

theorem alook_poisoned (s : BF) (N a : Addr) :
    alook (poisoned s N) a = (alook (costsTable s) a).map (poisonEntry s N a) :=
  alook_mapVal (poisonEntry s N) (costsTable s) a

theorem routeOf_eq {s : BF} {a : Addr} {n : Node} (h : alook s.nodes a = some n) :
    routeOf s.nodes a = n.route := by
  unfold routeOf
  rw [h]

/-- C1: a single recompute() pass sets, for every destination entry other
than self, the cost to the minimum over all current neighbors of direct cost
plus advertised cost (absent destinations counting as +infinity), the
nexthop to a neighbor attaining that minimum when the minimum is finite, and
(+infinity, empty) otherwise; the self entry is left unchanged. -/
theorem C1_recompute_min (s : BF) (a : Addr) (n : Node) (ha : a ≠ s.me)
    (hn : alook (estimate_costs s).nodes a = some n) :
    n.cost = minCost a (get_neighbors s.nodes)
    ∧ (n.cost = ⊤ → n.route = none)
    ∧ (n.cost ≠ ⊤ → ∃ x, n.route = some x ∧
        ∃ p, p ∈ get_neighbors s.nodes ∧ p.1 = x ∧ candidate a p = n.cost)
    ∧ alook (estimate_costs s).nodes s.me = alook s.nodes s.me := by
  rw [alook_estimate] at hn
  cases hx : alook s.nodes a with
  | none => rw [hx] at hn; exact absurd hn (by simp)
  | some n0 =>
      rw [hx] at hn
      have hn2 : some (estUpd s a n0) = some n := hn
      injection hn2 with hh
      have hame : ¬ a = s.me := ha
      have hcost : n.cost = (bestRoute (get_neighbors s.nodes) a).1 := by
        rw [← hh]; unfold estUpd; rw [if_neg hame]
      have hroute : n.route = (bestRoute (get_neighbors s.nodes) a).2 := by
        rw [← hh]; unfold estUpd; rw [if_neg hame]
      refine ⟨?_, ?_, ?_, ?_⟩
      · rw [hcost]; exact bestRoute_fst (get_neighbors s.nodes) a
      · intro htop
        rw [hroute]
        exact (bestRoute_good (get_neighbors s.nodes) a).mpr (by rw [← hcost]; exact htop)
      · intro hne
        have hne2 : (bestRoute (get_neighbors s.nodes) a).2 ≠ none := by
          intro hno
          exact hne (by rw [hcost]; exact (bestRoute_good (get_neighbors s.nodes) a).mp hno)
        cases hbr : (bestRoute (get_neighbors s.nodes) a).2 with
        | none => exact absurd hbr hne2
        | some x =>
            refine ⟨x, by rw [hroute, hbr], ?_⟩
            rcases bestRoute_attain (get_neighbors s.nodes) a x hbr with ⟨p, hp, hpx, hpc⟩
            exact ⟨p, hp, hpx, by rw [hcost]; exact hpc⟩
      · rw [alook_estimate]
        cases ho : alook s.nodes s.me with
        | none => rfl
        | some n1 =>
            have : estUpd s s.me n1 = n1 := by unfold estUpd; rw [if_pos rfl]
            show some (estUpd s s.me n1) = some n1
            rw [this]

/-- Concrete instance of C1: in `W2` the recomputed entry for destination 2
has the minimum candidate cost, which evaluates to 6 = direct 1 plus
advertised 5. -/
theorem C1_recompute_min_witness :
    ((alook (estimate_costs W2).nodes 2).getD default_node).cost
      = minCost 2 (get_neighbors W2.nodes)
    ∧ ((alook (estimate_costs W2).nodes 2).getD default_node).cost = ((6 : ℤ) : Cost) := by
  refine ⟨?_, by decide⟩
  exact (C1_recompute_min W2 2 ((alook (estimate_costs W2).nodes 2).getD default_node)
    (by decide) (by decide)).1

/-- C2: every datagram built by broadcast() for a neighbor N advertises +infinity
for each destination other than self and N whose current route is via N, the
stored computed cost for every other destination, and attaches self's direct
cost to N unpoisoned. -/
theorem C2_poison_reverse (s : BF) (N : Addr) (pl : Payload)
    (hmem : (N, pl) ∈ broadcast_costs s) :
    (∀ D n, alook s.nodes D = some n → D ≠ s.me → D ≠ N → n.route = some N →
        alook pl.costs D = some ⊤)
    ∧ (∀ D n, alook s.nodes D = some n → (D = s.me ∨ D = N ∨ n.route ≠ some N) →
        alook pl.costs D = some n.cost)
    ∧ ∃ nb, (N, nb) ∈ s.nodes ∧ nb.is_neighbor = true ∧ pl.direct = nb.direct := by
  unfold broadcast_costs at hmem
  rw [List.mem_map] at hmem
  obtain ⟨q, hq, heq⟩ := hmem
  obtain ⟨qa, qn⟩ := q
  cases heq
  unfold get_neighbors at hq
  rw [List.mem_filter] at hq
  refine ⟨?_, ?_, ⟨qn, hq.1, hq.2, rfl⟩⟩
  · intro D n hD hDme hDN hroute
    show alook (poisoned s qa) D = some ⊤
    rw [alook_poisoned, alook_costsTable, hD]
    show some (poisonEntry s qa D n.cost) = some ⊤
    unfold poisonEntry
    rw [if_neg (by intro hor; rcases hor with hor | hor; exact hDme hor; exact hDN hor)]
    rw [routeOf_eq hD, hroute, if_pos rfl]
  · intro D n hD hcase
    show alook (poisoned s qa) D = some n.cost
    rw [alook_poisoned, alook_costsTable, hD]
    show some (poisonEntry s qa D n.cost) = some n.cost
    unfold poisonEntry
    by_cases h1 : D = s.me ∨ D = qa
    · rw [if_pos h1]
    · rw [if_neg h1]
      have hr : n.route ≠ some qa := by
        rcases hcase with hc | hc | hc
        · exact absurd (Or.inl hc) h1
        · exact absurd (Or.inr hc) h1
        · exact hc
      rw [routeOf_eq hD, if_neg hr]

/-- Concrete instance of C2: the datagram `W2p` that `broadcast_costs`
builds on `W2` for neighbor 1 poisons destination 2 (routed via 1) and
carries the direct cost 1 unpoisoned. -/
theorem C2_poison_reverse_witness :
    alook W2p.2.costs 2 = some ⊤ ∧ W2p.1 = 1 ∧ W2p.2.direct = ((1 : ℤ) : Cost) := by
  refine ⟨?_, by decide, by decide⟩
  exact (C2_poison_reverse W2 W2p.1 W2p.2 (by decide)).1 2
    ((alook W2.nodes 2).getD default_node) (by decide) (by decide) (by decide) (by decide)

theorem alook_promote_self (X : BF) (sender : Addr) (v : List (Addr × Cost)) (d : Cost) :
    alook (promote X sender v d).nodes sender
      = some (create_node ⊤ true (some d) (some v) sender X.timeout X.now) := by
  simp only [promote]
  have h1 : alook (aerase X.nodes sender) sender = none := by
    rw [alook_aerase, if_pos rfl]
  have h2 : alook (aerase X.nodes sender ++ [(sender, default_node)]) sender
      = some default_node := by
    rw [alook_append, h1]
    simp [alook]
  rw [alook_aset, if_pos rfl, h2]
  rfl

theorem alook_est_aset {X : BF} {a : Addr} {n0 : Node} (n2 : Node)
    (h : alook X.nodes a = some n0) :
    alook (estimate_costs { X with nodes := aset X.nodes a n2 }).nodes a
      = some (estUpd { X with nodes := aset X.nodes a n2 } a n2) := by
  rw [alook_estimate]
  show Option.map _ (alook (aset X.nodes a n2) a) = _
  rw [alook_aset, if_pos rfl, h]
  rfl

/-- C3 counterexample: in `W3` the non-neighbor entry 1 has previously
computed cost 6, yet the entry created by the promotion branch of
`update_costs` carries cost +infinity, not 6 — the `del` precedes the read
of the old cost. -/
theorem C3_cex :
    update_costs W3 1 [(0, ((1 : ℤ) : Cost))] ((1 : ℤ) : Cost)
      = estimate_costs (promote (ucS1 W3 [(0, ((1 : ℤ) : Cost))]) 1
          [(0, ((1 : ℤ) : Cost))] ((1 : ℤ) : Cost))
    ∧ ((alook W3.nodes 1).getD default_node).cost = ((6 : ℤ) : Cost)
    ∧ ((alook W3.nodes 1).getD default_node).is_neighbor = false
    ∧ ((alook (promote (ucS1 W3 [(0, ((1 : ℤ) : Cost))]) 1 [(0, ((1 : ℤ) : Cost))]
        ((1 : ℤ) : Cost)).nodes 1).getD default_node).cost = ⊤
    ∧ ((6 : ℤ) : Cost) ≠ ⊤ := by
  refine ⟨by decide, by decide, by decide, by decide, by decide⟩

/-- C3 as amended: promotion of a non-neighbor sender replaces the entry
with a fresh neighbor entry whose direct cost, advertised vector, nexthop
and started liveness timer are as claimed, after which recomputation runs —
but the cost field of the created entry is the store default +infinity (the
entry is deleted before its old cost is read), not the previously computed
cost. -/
theorem C3_promote_fresh (s : BF) (sender : Addr) (v : List (Addr × Cost)) (d : Cost)
    (n0 : Node) (h : alook s.nodes sender = some n0) (hn : n0.is_neighbor = false) :
    update_costs s sender v d = estimate_costs (promote (ucS1 s v) sender v d)
    ∧ ∃ n1, alook (promote (ucS1 s v) sender v d).nodes sender = some n1
        ∧ n1.is_neighbor = true ∧ n1.direct = d ∧ n1.costs = v
        ∧ n1.route = some sender ∧ n1.saved = none ∧ n1.cost = ⊤
        ∧ n1.monitor = some ⟨3 * s.timeout, s.now, false, sender⟩ := by
  refine ⟨update_costs_promote v d h hn, ?_⟩
  refine ⟨create_node ⊤ true (some d) (some v) sender s.timeout s.now, ?_, ?_⟩
  · exact alook_promote_self (ucS1 s v) sender v d
  · exact ⟨rfl, rfl, rfl, rfl, rfl, rfl, rfl⟩

/-- Concrete instance of the amended C3 on `W3`. -/
theorem C3_promote_fresh_witness :
    update_costs W3 1 [(0, ((1 : ℤ) : Cost))] ((1 : ℤ) : Cost)
      = estimate_costs (promote (ucS1 W3 [(0, ((1 : ℤ) : Cost))]) 1
          [(0, ((1 : ℤ) : Cost))] ((1 : ℤ) : Cost)) :=
  (C3_promote_fresh W3 1 [(0, ((1 : ℤ) : Cost))] ((1 : ℤ) : Cost)
    ((alook W3.nodes 1).getD default_node) (by decide) (by decide)).1

/-- C4 counterexample: after taking the link to neighbor 1 down in `W1`,
`savedDirectCost` is present, yet `linkchange` reports the not-a-neighbor
failure, not the bring-the-link-up-first one. -/
theorem C4_cex :
    ((alook (linkdown W1 1).1.nodes 1).getD default_node).saved.isSome = true
    ∧ (linkchange (linkdown W1 1).1 1 2).2 = some CmdError.notNeighbor
    ∧ (linkchange (linkdown W1 1).1 1 2).2 ≠ some CmdError.linkDown := by
  refine ⟨by decide, by decide, by decide⟩

/-- C4 as amended: changeCost succeeds exactly on a neighbor with no saved
direct cost and new cost at least 1, mutating only the direct cost and then
recomputing; a cost below 1 on a neighbor fails with the InvalidArgument
report; but a present savedDirectCost implies (in every reachable state) the
entry is not a neighbor, so the call fails with the not-a-neighbor
InvalidTransition report rather than one instructing bringUp first; every
failing call leaves the state unchanged. -/
theorem C4_changeCost :
    (∀ s, Reachable s → ∀ a n, alook s.nodes a = some n →
        n.saved.isSome = true → n.is_neighbor = false)
    ∧ ∀ s a c n, alook s.nodes a = some n →
        (((linkchange s a c).2 = none ↔ (n.is_neighbor = true ∧ n.saved = none ∧ 1 ≤ c))
        ∧ (n.is_neighbor = true → n.saved = none → 1 ≤ c →
            linkchange s a c
              = (estimate_costs { s with nodes := aset s.nodes a (chgNode n c) }, none))
        ∧ (n.is_neighbor = true → c < 1 → linkchange s a c = (s, some CmdError.minCost))
        ∧ (n.saved.isSome = true → n.is_neighbor = false →
            linkchange s a c = (s, some CmdError.notNeighbor))
        ∧ ((linkchange s a c).2 ≠ none → (linkchange s a c).1 = s)) := by
  constructor
  · intro s hs a n hn hsome
    exact ((reachable_storeinv hs).1 a n hn).2 hsome
  · intro s a c n h
    by_cases hb : n.is_neighbor = true
    · by_cases hc : c < 1
      · rw [linkchange_small h hb hc]
        refine ⟨?_, ?_, ?_, ?_, ?_⟩
        · constructor
          · intro h0; exact absurd h0 (by simp)
          · intro h0; exact absurd h0.2.2 (not_le.mpr hc)
        · intro _ _ h1; exact absurd h1 (not_le.mpr hc)
        · intro _ _; rfl
        · intro _ hnb; rw [hb] at hnb; exact absurd hnb (by simp)
        · intro _; rfl
      · cases hsv : n.saved with
        | some d0 =>
            rw [linkchange_down h hb hc (by rw [hsv]; rfl)]
            refine ⟨?_, ?_, ?_, ?_, ?_⟩
            · constructor
              · intro h0; exact absurd h0 (by simp)
              · intro h0; exact absurd h0.2.1 (by simp)
            · intro _ hset _; exact absurd hset (by simp)
            · intro _ h1; exact absurd h1 hc
            · intro _ hnb; rw [hb] at hnb; exact absurd hnb (by simp)
            · intro _; rfl
        | none =>
            rw [linkchange_success h hb hc hsv]
            refine ⟨?_, ?_, ?_, ?_, ?_⟩
            · constructor
              · intro _; exact ⟨hb, rfl, le_of_not_lt hc⟩
              · intro _; rfl
            · intro _ _ _; rfl
            · intro _ h1; exact absurd h1 hc
            · intro hsome _; exact absurd hsome (by simp)
            · intro h0; exact absurd rfl h0
    · have hb2 : n.is_neighbor = false := by
        cases hbb : n.is_neighbor with
        | true => exact absurd hbb hb
        | false => rfl
      rw [linkchange_not_neighbor c h hb2]
      refine ⟨?_, ?_, ?_, ?_, ?_⟩
      · constructor
        · intro h0; exact absurd h0 (by simp)
        · intro h0; exact absurd h0.1 hb
      · intro h1 _ _; exact absurd h1 hb
      · intro h1 _; exact absurd h1 hb
      · intro _ _; rfl
      · intro _; rfl

/-- Concrete instance of the amended C4: on the reachable downed state the
entry with a saved cost is indeed not a neighbor, and a cost-change request
of 0 on the live neighbor of `W1` fails with the InvalidArgument report. -/
theorem C4_changeCost_witness :
    ((alook (linkdown W1 1).1.nodes 1).getD default_node).is_neighbor = false
    ∧ linkchange W1 1 0 = (W1, some CmdError.minCost) := by
  constructor
  · exact C4_changeCost.1 (linkdown W1 1).1
      (Reachable.step W1 (linkdown W1 1).1 (Reachable.init 0 5 [(1, 2)]) (Step.down W1 1)) 1
      ((alook (linkdown W1 1).1.nodes 1).getD default_node) (by decide) (by decide)
  · exact (C4_changeCost.2 W1 1 0 ((alook W1.nodes 1).getD default_node)
      (by decide)).2.2.1 (by decide) (by decide)

/-- C5 counterexample: takeDown then bringUp on the neighbor of `W1`
succeeds and restores the direct cost, but the liveness timer remains
cancelled — bringUp does not start it. -/
theorem C5_cex :
    (linkdown W1 1).2 = none
    ∧ (linkup (linkdown W1 1).1 1).2 = none
    ∧ ((alook (linkup (linkdown W1 1).1 1).1.nodes 1).getD default_node).direct
        = ((2 : ℤ) : Cost)
    ∧ (((alook (linkup (linkdown W1 1).1 1).1.nodes 1).getD default_node).monitor).map
        Monitor.cancelled = some true := by
  refine ⟨by decide, by decide, by decide, by decide⟩

/-- C5 as amended: a successful takeDown followed by bringUp with no
intervening operation restores the direct cost exactly, clears the saved
cost, re-promotes the entry and triggers a recomputation — but the liveness
timer is not restarted: the entry keeps the cancelled monitor (it only
starts again on the next inbound advertisement).  bringUp on an entry
without a saved cost fails with the no-previous-neighbor InvalidTransition
and changes nothing. -/
theorem C5_restore :
    (∀ s a n, alook s.nodes a = some n → n.is_neighbor = true →
      (linkdown s a).2 = none
      ∧ (linkup (linkdown s a).1 a).2 = none
      ∧ (∃ X, (linkup (linkdown s a).1 a).1 = estimate_costs X)
      ∧ ∃ n2, alook (linkup (linkdown s a).1 a).1.nodes a = some n2
          ∧ n2.direct = n.direct ∧ n2.saved = none ∧ n2.is_neighbor = true
          ∧ n2.monitor = n.monitor.map (fun m => { m with cancelled := true }))
    ∧ ∀ s a n, alook s.nodes a = some n → n.saved = none →
        linkup s a = (s, some CmdError.noSaved) := by
  constructor
  · intro s a n h hb
    rw [linkdown_success h hb]
    have hM : alook (aset s.nodes a (downNode n)) a = some (downNode n) := by
      rw [alook_aset, if_pos rfl, h]; rfl
    have hEst := alook_est_aset (downNode n) h
    have hsv : (estUpd { s with nodes := aset s.nodes a (downNode n) } a
        (downNode n)).saved = some n.direct := by
      rw [estUpd_saved]
      rfl
    rw [linkup_success hEst hsv]
    refine ⟨rfl, rfl, ⟨_, rfl⟩, ?_⟩
    have hFin := alook_est_aset
      (upNode (estUpd { s with nodes := aset s.nodes a (downNode n) } a (downNode n))
        n.direct) hEst
    refine ⟨_, hFin, ?_, ?_, ?_, ?_⟩
    · rw [estUpd_direct]; rfl
    · rw [estUpd_saved]; rfl
    · rw [estUpd_is_neighbor]; rfl
    · rw [estUpd_monitor]
      show (estUpd { s with nodes := aset s.nodes a (downNode n) } a
        (downNode n)).monitor = _
      rw [estUpd_monitor]
      rfl
  · intro s a n h hs
    exact linkup_no_saved h hs

/-- Concrete instance of the amended C5 on `W1`. -/
theorem C5_restore_witness :
    (linkup (linkdown W1 1).1 1).2 = none
    ∧ ((alook (linkup (linkdown W1 1).1 1).1.nodes 1).getD default_node).direct
        = ((2 : ℤ) : Cost) := by
  refine ⟨?_, by decide⟩
  exact (C5_restore.1 W1 1 ((alook W1.nodes 1).getD default_node)
    (by decide) (by decide)).2.1

/-- C6 counterexample: taking down a never-seen address fails with the
unknown-node report, but a default entry for that address is created by the
store lookup. -/
theorem C6_cex :
    (linkdown W1 7).2 = some CmdError.unknownNode
    ∧ ahas (linkdown W1 7).1.nodes 7 = true := by
  refine ⟨by decide, by decide⟩

/-- C6 as amended: each of takeDown, bringUp and changeCost on a never-seen
address fails with the UnknownNode report without touching any existing
entry, but the store's lazily creating lookup appends a default unreachable
non-neighbor entry for that address. -/
theorem C6_unknown (s : BF) (a : Addr) (h : alook s.nodes a = none) :
    linkdown s a
      = ({ s with nodes := s.nodes ++ [(a, default_node)] }, some CmdError.unknownNode)
    ∧ linkup s a
      = ({ s with nodes := s.nodes ++ [(a, default_node)] }, some CmdError.unknownNode)
    ∧ (∀ c, linkchange s a c
      = ({ s with nodes := s.nodes ++ [(a, default_node)] }, some CmdError.unknownNode))
    ∧ (∀ x, x ≠ a → alook (s.nodes ++ [(a, default_node)]) x = alook s.nodes x)
    ∧ alook (s.nodes ++ [(a, default_node)]) a = some default_node := by
  refine ⟨linkdown_unknown h, linkup_unknown h, fun c => linkchange_unknown c h, ?_, ?_⟩
  · intro x hx
    rw [alook_append]
    by_cases hsx : (alook s.nodes x).isSome = true
    · rw [if_pos hsx]
    · rw [if_neg hsx]
      have h1 : alook s.nodes x = none := by
        cases ho : alook s.nodes x with
        | none => rfl
        | some nn => rw [ho] at hsx; exact absurd rfl hsx
      have hax : ¬ a = x := fun hh => hx hh.symm
      rw [h1]
      simp [alook, hax]
  · rw [alook_append, h]
    simp [alook]

/-- Concrete instance of the amended C6 on `W1` and the never-seen
address 7. -/
theorem C6_unknown_witness :
    linkup W1 7
      = ({ W1 with nodes := W1.nodes ++ [(7, default_node)] }, some CmdError.unknownNode) :=
  (C6_unknown W1 7 (by decide)).2.1

/-- C7: in every reachable state each liveness monitor has interval exactly
three times the broadcast period and targets its own neighbor; a fresh
advertisement from a current neighbor restarts its monitor from the full
interval at the time of receipt, so it cannot fire within one full interval
of that receipt; and a monitor that does fire performs takeDown of that
neighbor. -/
theorem C7_silence (s : BF) (h : Reachable s) :
    (∀ a n m, alook s.nodes a = some n → n.monitor = some m →
        m.interval = 3 * s.timeout ∧ m.target = a)
    ∧ (∀ sender v d n m, alook s.nodes sender = some n → n.is_neighbor = true →
        n.monitor = some m →
        ∃ n2 m2, alook (update_costs s sender v d).nodes sender = some n2
          ∧ n2.monitor = some m2 ∧ m2.startedAt = s.now ∧ m2.cancelled = false
          ∧ m2.interval = 3 * s.timeout
          ∧ ∀ e, 0 ≤ e → e < 3 * s.timeout →
              expire (tick (update_costs s sender v d) e) sender = none)
    ∧ (∀ a s2, expire s a = some s2 → s2 = (linkdown s a).1) := by
  refine ⟨?_, ?_, ?_⟩
  · intro a n m hn hm
    exact ((reachable_storeinv h).1 a n hn).1 m hm
  · intro sender v d n m h1 hb hm
    have hint : m.interval = 3 * s.timeout :=
      (((reachable_storeinv h).1 sender n h1).1 m hm).1
    have h2 : alook (ucS1 s v).nodes sender = some n := alook_ucS1 v h1
    have hmv : merge_vec (ucS1 s v) sender v
        = { ucS1 s v with
            nodes := aset (ucS1 s v).nodes sender (mergeNode (ucS1 s v) n v) } := by
      unfold merge_vec
      simp only [h2]
    have hupd : update_costs s sender v d
        = estimate_costs { ucS1 s v with
            nodes := aset (ucS1 s v).nodes sender (mergeNode (ucS1 s v) n v) } := by
      rw [update_costs_merge v d h1 hb, hmv]
    have hEntry := alook_est_aset (mergeNode (ucS1 s v) n v) h2
    have hmon : (estUpd { ucS1 s v with
          nodes := aset (ucS1 s v).nodes sender (mergeNode (ucS1 s v) n v) } sender
          (mergeNode (ucS1 s v) n v)).monitor
        = some { m with startedAt := s.now, cancelled := false } := by
      rw [estUpd_monitor]
      show n.monitor.map _ = _
      rw [hm]
      rfl
    refine ⟨_, { m with startedAt := s.now, cancelled := false },
      by rw [hupd]; exact hEntry, hmon, rfl, rfl, hint, ?_⟩
    intro e he1 he2
    rw [hupd]
    unfold expire tick
    simp only [hEntry, hmon]
    rw [if_neg]
    intro hcond
    have hle : s.now + m.interval ≤ s.now + e := hcond.2
    rw [hint] at hle
    omega
  · intro a s2 hf
    unfold expire at hf
    cases hx : alook s.nodes a with
    | none =>
        simp only [hx] at hf
        exact absurd hf (by simp)
    | some n =>
        simp only [hx] at hf
        cases hm : n.monitor with
        | none =>
            simp only [hm] at hf
            exact absurd hf (by simp)
        | some m =>
            simp only [hm] at hf
            by_cases hc : m.cancelled = false ∧ m.startedAt + m.interval ≤ s.now
            · rw [if_pos hc] at hf
              injection hf with hf
              have ht : m.target = a := (((reachable_storeinv h).1 a n hx).1 m hm).2
              rw [← hf, ht]
            · rw [if_neg hc] at hf
              exact absurd hf (by simp)

/-- Concrete instance of C7 on `W1`: after an advertisement from neighbor 1
is merged at time 0, the silence monitor cannot fire 7 time units later,
well within the full interval 15 = 3 times the broadcast period 5. -/
theorem C7_silence_witness :
    expire (tick (update_costs W1 1 [(0, ((1 : ℤ) : Cost))] ((1 : ℤ) : Cost)) 7) 1
      = none := by
  obtain ⟨n2, m2, hl, hm, hst, hc, hi, hf⟩ :=
    (C7_silence W1 (Reachable.init 0 5 [(1, 2)])).2.1 1 [(0, ((1 : ℤ) : Cost))]
      ((1 : ℤ) : Cost) ((alook W1.nodes 1).getD default_node)
      (((alook W1.nodes 1).getD default_node).monitor.getD ⟨0, 0, false, 0⟩)
      (by decide) (by decide) (by decide)
  exact hf 7 (by decide) (by decide)

/-- C8: a second consecutive recompute() with no intervening store mutation
is the identity: the whole state, and in particular every entry's
(cost, nexthop) pair, is exactly as the first invocation left it. -/
theorem C8_recompute_idempotent (s : BF) :
    estimate_costs (estimate_costs s) = estimate_costs s
    ∧ ∀ a, (alook (estimate_costs (estimate_costs s)).nodes a).map
          (fun n => (n.cost, n.route))
        = (alook (estimate_costs s).nodes a).map (fun n => (n.cost, n.route)) := by
  refine ⟨estimate_costs_idem s, ?_⟩
  intro a
  rw [estimate_costs_idem s]

/-- C9: in every reachable state, every entry other than self has a
non-empty nexthop exactly when its cost is finite. -/
theorem C9_route_iff_finite (s : BF) (h : Reachable s) :
    ∀ a n, alook s.nodes a = some n → a ≠ s.me → (n.route ≠ none ↔ n.cost ≠ ⊤) :=
  (reachable_storeinv h).2

/-- Concrete instance of C9 on the seeded state `W1`. -/
theorem C9_route_iff_finite_witness :
    ((alook W1.nodes 1).getD default_node).route ≠ none ↔
      ((alook W1.nodes 1).getD default_node).cost ≠ ⊤ :=
  C9_route_iff_finite W1 (Reachable.init 0 5 [(1, 2)]) 1
    ((alook W1.nodes 1).getD default_node) (by decide) (by decide)

/-- C10: an inbound advertisement from an address whose link is
administratively down re-promotes it by replacing the whole entry: the new
entry is a neighbor with the sender's newly claimed direct cost and no saved
cost, so a subsequent bringUp fails as if the link had never been taken
down, mutating nothing. -/
theorem C10_repromote_discards_saved (s : BF) (a : Addr) (v : List (Addr × Cost))
    (d : Cost) (n : Node) (h : alook s.nodes a = some n)
    (hdown : n.saved.isSome = true) (hnb : n.is_neighbor = false) :
    ∃ n2, alook (update_costs s a v d).nodes a = some n2
      ∧ n2.is_neighbor = true ∧ n2.direct = d ∧ n2.saved = none
      ∧ linkup (update_costs s a v d) a
          = (update_costs s a v d, some CmdError.noSaved) := by
  have hupd := update_costs_promote v d h hnb
  have hpl := alook_promote_self (ucS1 s v) a v d
  have hpost : alook (update_costs s a v d).nodes a
      = some (estUpd (promote (ucS1 s v) a v d) a
          (create_node ⊤ true (some d) (some v) a s.timeout s.now)) := by
    rw [hupd, alook_estimate, hpl]
    rfl
  refine ⟨_, hpost, ?_, ?_, ?_, ?_⟩
  · rw [estUpd_is_neighbor]; rfl
  · rw [estUpd_direct]; rfl
  · rw [estUpd_saved]; rfl
  · refine linkup_no_saved hpost ?_
    rw [estUpd_saved]; rfl

/-- Concrete instance of C10: after downing the link to 1 in `W1`, an
advertisement from 1 re-promotes it and the following bringUp fails with
the no-previous-neighbor report. -/
theorem C10_repromote_witness :
    linkup (update_costs (linkdown W1 1).1 1 [(0, ((1 : ℤ) : Cost))] ((1 : ℤ) : Cost)) 1
      = (update_costs (linkdown W1 1).1 1 [(0, ((1 : ℤ) : Cost))] ((1 : ℤ) : Cost),
         some CmdError.noSaved) := by
  obtain ⟨n2, hl, hb, hd, hs, hfail⟩ :=
    C10_repromote_discards_saved (linkdown W1 1).1 1 [(0, ((1 : ℤ) : Cost))]
      ((1 : ℤ) : Cost) ((alook (linkdown W1 1).1.nodes 1).getD default_node)
      (by decide) (by decide) (by decide)
  exact hfail
